import Mathlib

/-!
Verification development for the `sl-ot-tools` viewer application
(`viewer-app/src-tauri/src/main.rs`).

The file shallowly embeds the interactive process bridge (shell locator,
session registry, spawn/write commands, output pumps, exit watcher) and the
knowledge-log Markdown parser, and proves the specified properties about the
embedding.  Bytes and Unicode scalar values are modelled as `Nat`; strings
manipulated byte-wise by the parser are modelled as `List Nat` of their
character values.
-/

namespace SlOt

/-! ### UTF-8 lossy decoding (`String::from_utf8_lossy`)

The pumps decode each read buffer with `String::from_utf8_lossy`, which
replaces every maximal invalid subpart with U+FFFD.  `from_utf8_lossy` below
is that decoder on byte lists, producing the list of decoded Unicode scalar
values. -/

/-- Continuation-byte test: `0x80 ≤ b ≤ 0xBF`. -/
def isCont (b : Nat) : Bool := decide (0x80 ≤ b ∧ b ≤ 0xBF)

/-- Admissible second byte of a three-byte sequence, given the lead byte
(`0xE0` needs `0xA0..0xBF`, `0xED` needs `0x80..0x9F`, the rest a plain
continuation byte). -/
def snd3 (b0 b1 : Nat) : Bool :=
  if b0 = 0xE0 then decide (0xA0 ≤ b1 ∧ b1 ≤ 0xBF)
  else if b0 = 0xED then decide (0x80 ≤ b1 ∧ b1 ≤ 0x9F)
  else isCont b1

/-- Admissible second byte of a four-byte sequence, given the lead byte
(`0xF0` needs `0x90..0xBF`, `0xF4` needs `0x80..0x8F`, the rest a plain
continuation byte). -/
def snd4 (b0 b1 : Nat) : Bool :=
  if b0 = 0xF0 then decide (0x90 ≤ b1 ∧ b1 ≤ 0xBF)
  else if b0 = 0xF4 then decide (0x80 ≤ b1 ∧ b1 ≤ 0x8F)
  else isCont b1

/-- Decode one two-byte sequence after lead byte `b0` (`0xC2..0xDF`): a
continuation byte completes the scalar, anything else (or end of input) is a
maximal invalid subpart, replaced by U+FFFD. -/
def decode2 (b0 : Nat) : List Nat → Nat × List Nat
  | [] => (0xFFFD, [])
  | b1 :: r2 =>
    if isCont b1 then ((b0 - 0xC0) * 0x40 + (b1 - 0x80), r2)
    else (0xFFFD, b1 :: r2)

/-- Third byte of a three-byte sequence. -/
def decode3cont (b0 b1 : Nat) : List Nat → Nat × List Nat
  | [] => (0xFFFD, [])
  | b2 :: r3 =>
    if isCont b2 then ((b0 - 0xE0) * 0x1000 + (b1 - 0x80) * 0x40 + (b2 - 0x80), r3)
    else (0xFFFD, b2 :: r3)

/-- Decode one three-byte sequence after lead byte `b0` (`0xE0..0xEF`). -/
def decode3 (b0 : Nat) : List Nat → Nat × List Nat
  | [] => (0xFFFD, [])
  | b1 :: r2 =>
    if snd3 b0 b1 then decode3cont b0 b1 r2 else (0xFFFD, b1 :: r2)

/-- Fourth byte of a four-byte sequence. -/
def decode4cont2 (b0 b1 b2 : Nat) : List Nat → Nat × List Nat
  | [] => (0xFFFD, [])
  | b3 :: r4 =>
    if isCont b3 then
      ((b0 - 0xF0) * 0x40000 + (b1 - 0x80) * 0x1000 + (b2 - 0x80) * 0x40 + (b3 - 0x80), r4)
    else (0xFFFD, b3 :: r4)

/-- Third byte of a four-byte sequence. -/
def decode4cont (b0 b1 : Nat) : List Nat → Nat × List Nat
  | [] => (0xFFFD, [])
  | b2 :: r3 =>
    if isCont b2 then decode4cont2 b0 b1 b2 r3 else (0xFFFD, b2 :: r3)

/-- Decode one four-byte sequence after lead byte `b0` (`0xF0..0xF4`). -/
def decode4 (b0 : Nat) : List Nat → Nat × List Nat
  | [] => (0xFFFD, [])
  | b1 :: r2 =>
    if snd4 b0 b1 then decode4cont b0 b1 r2 else (0xFFFD, b1 :: r2)

/-- Decode one scalar value (or one maximal invalid subpart, as U+FFFD) from
lead byte `b0` followed by `r`, returning the decoded value and the
remaining bytes.  Lead bytes `0x80..0xC1` (bare continuation bytes and
overlong leads) and `0xF5..` are invalid on their own. -/
def decodeSym (b0 : Nat) (r : List Nat) : Nat × List Nat :=
  if b0 < 0x80 then (b0, r)
  else if b0 < 0xC2 then (0xFFFD, r)
  else if b0 ≤ 0xDF then decode2 b0 r
  else if b0 ≤ 0xEF then decode3 b0 r
  else if b0 ≤ 0xF4 then decode4 b0 r
  else (0xFFFD, r)

lemma decode2_length (b0 : Nat) (r : List Nat) : (decode2 b0 r).2.length ≤ r.length := by
  cases r with
  | nil => simp [decode2]
  | cons b1 r2 => simp only [decode2]; split <;> simp

lemma decode3cont_length (b0 b1 : Nat) (r : List Nat) :
    (decode3cont b0 b1 r).2.length ≤ r.length := by
  cases r with
  | nil => simp [decode3cont]
  | cons b2 r3 => simp only [decode3cont]; split <;> simp

lemma decode3_length (b0 : Nat) (r : List Nat) : (decode3 b0 r).2.length ≤ r.length := by
  cases r with
  | nil => simp [decode3]
  | cons b1 r2 =>
    simp only [decode3]
    split
    · have := decode3cont_length b0 b1 r2; simpa using Nat.le_succ_of_le this
    · simp

lemma decode4cont2_length (b0 b1 b2 : Nat) (r : List Nat) :
    (decode4cont2 b0 b1 b2 r).2.length ≤ r.length := by
  cases r with
  | nil => simp [decode4cont2]
  | cons b3 r4 => simp only [decode4cont2]; split <;> simp

lemma decode4cont_length (b0 b1 : Nat) (r : List Nat) :
    (decode4cont b0 b1 r).2.length ≤ r.length := by
  cases r with
  | nil => simp [decode4cont]
  | cons b2 r3 =>
    simp only [decode4cont]
    split
    · have := decode4cont2_length b0 b1 b2 r3; simpa using Nat.le_succ_of_le this
    · simp

lemma decode4_length (b0 : Nat) (r : List Nat) : (decode4 b0 r).2.length ≤ r.length := by
  cases r with
  | nil => simp [decode4]
  | cons b1 r2 =>
    simp only [decode4]
    split
    · have := decode4cont_length b0 b1 r2; simpa using Nat.le_succ_of_le this
    · simp

lemma decodeSym_length (b0 : Nat) (r : List Nat) : (decodeSym b0 r).2.length ≤ r.length := by
  unfold decodeSym
  split
  · simp
  · split
    · simp
    · split
      · exact decode2_length b0 r
      · split
        · exact decode3_length b0 r
        · split
          · exact decode4_length b0 r
          · simp

/-- `String::from_utf8_lossy` on a byte list: decodes UTF-8 one scalar value
(or one maximal invalid subpart, replaced by U+FFFD = `0xFFFD`) at a time,
per the substitution-of-maximal-subparts policy used by the Rust standard
library. -/
def from_utf8_lossy : List Nat → List Nat
  | [] => []
  | b0 :: r => (decodeSym b0 r).1 :: from_utf8_lossy (decodeSym b0 r).2
  termination_by l => l.length
  decreasing_by
    have := decodeSym_length b1 r2
    simp only [List.length_cons]
    omega

/-- A Unicode scalar value: below `0x110000` and not a surrogate. -/
def Scalar (c : Nat) : Prop := c < 0x110000 ∧ ¬ (0xD800 ≤ c ∧ c ≤ 0xDFFF)

instance (c : Nat) : Decidable (Scalar c) := by unfold Scalar; infer_instance

/-- UTF-8 encoding of one scalar value. -/
def utf8EncodeChar (c : Nat) : List Nat :=
  if c < 0x80 then [c]
  else if c < 0x800 then [0xC0 + c / 0x40, 0x80 + c % 0x40]
  else if c < 0x10000 then
    [0xE0 + c / 0x1000, 0x80 + c / 0x40 % 0x40, 0x80 + c % 0x40]
  else
    [0xF0 + c / 0x40000, 0x80 + c / 0x1000 % 0x40, 0x80 + c / 0x40 % 0x40, 0x80 + c % 0x40]

/-- UTF-8 encoding of a list of scalar values. -/
def utf8Encode (cs : List Nat) : List Nat := (cs.map utf8EncodeChar).flatten

/-! ### Shell locator (`spawn_terminal`, lines 215–230)

On Windows the code probes `C:\Windows\System32\wsl.exe`; if it exists it
selects `wsl.exe` with no arguments, otherwise `cmd.exe` with no arguments.
On every other platform it selects `bash` with no arguments.  The two
environment facts the decision depends on are passed in as booleans:
`isWindows` (the compile-time `cfg!(target_os = "windows")`) and `wslExists`
(whether the probed fixed path exists on the filesystem). -/

def locateShell (isWindows wslExists : Bool) : String × List String :=
  if isWindows then
    if wslExists then ("wsl.exe", []) else ("cmd.exe", [])
  else ("bash", [])

/-! ### Session registry and process bridge

`TerminalState` in the source is `Arc<Mutex<Option<TerminalProcess>>>`, where
`TerminalProcess` holds the child's stdin handle.  We model the guarded slot
as `Option TerminalProcess` and the stdin pipe as the list of bytes written
to it so far. -/

structure TerminalProcess where
  stdinBuf : List Nat
  deriving DecidableEq, Repr

/-- Outcome of the OS `spawn` call attempted by `spawn_terminal` (success, or
failure with the OS error text that Rust formats into the message). -/
inductive SpawnOutcome where
  | success
  | failure (osError : String)
  deriving DecidableEq, Repr

/-- Result of one `spawn_terminal` call: the new registry slot, the returned
`Result<String, String>`, and whether this call spawned a subprocess. -/
structure SpawnResult where
  slot : Option TerminalProcess
  result : Except String String
  spawned : Bool
  deriving Repr

/-- `spawn_terminal` (lines 202–319).  Under the registry guard: if the slot
is occupied, return `Ok("already running")` without spawning; otherwise
locate the shell, attempt to spawn it, and on success store the stdin handle
in the slot.  On spawn failure the error message
`"[TERM] Failed to spawn {program}: {os_error}"` is returned and the slot is
left empty.  (With `Stdio::piped()` the three handle `take()` calls cannot
fail, so a successful spawn always reaches the slot assignment.) -/
def spawn_terminal (slot : Option TerminalProcess) (isWindows wslExists : Bool)
    (outcome : SpawnOutcome) : SpawnResult :=
  match slot with
  | some p => ⟨some p, .ok "already running", false⟩
  | none =>
    let program := (locateShell isWindows wslExists).1
    match outcome with
    | .success => ⟨some ⟨[]⟩, .ok ("spawned " ++ program ++ " (pid ?)"), true⟩
    | .failure e =>
      ⟨none, .error ("[TERM] Failed to spawn " ++ program ++ ": " ++ e), false⟩

/-- Message returned by `write_terminal` when the slot is empty. -/
def noActiveSessionMsg : String := "No terminal process running"

/-- `write_terminal` (lines 321–334).  Under the registry guard: with no
session it returns `Err("No terminal process running")`; with a session it
does `stdin.write_all(data)` then `stdin.flush()`, mapping an error of either
to `Err("Write failed: ..")` / `Err("Flush failed: ..")`.  `wErr = some (k, e)`
models `write_all` failing with OS error `e` after `k` bytes reached the
pipe; `fErr = some e` models `flush` failing.  The returned pair is the new
slot and the `Result<(), String>`. -/
def write_terminal (slot : Option TerminalProcess) (data : List Nat)
    (wErr : Option (Nat × String)) (fErr : Option String) :
    Option TerminalProcess × Except String Unit :=
  match slot with
  | none => (none, .error noActiveSessionMsg)
  | some p =>
    match wErr with
    | some (k, e) => (some ⟨p.stdinBuf ++ data.take k⟩, .error ("Write failed: " ++ e))
    | none =>
      match fErr with
      | some e => (some ⟨p.stdinBuf ++ data⟩, .error ("Flush failed: " ++ e))
      | none => (some ⟨p.stdinBuf ++ data⟩, .ok ())

/-! ### Lock/I-O event traces

To reason about where blocking pipe I/O happens relative to the registry
guard, each operation is also given as the sequence of lock and I/O events it
performs, in program order.  In `write_terminal` the guard is acquired at the
top of the function and (per Rust scoping) released when the function
returns, so the `write_all`/`flush` calls happen strictly between the two. -/

inductive LockEv where
  | acquire
  | release
  | ioWrite (data : List Nat)
  | ioFlush
  deriving DecidableEq, Repr

/-- Event trace of one `write_terminal` call (same cases as
`write_terminal`): the guard is taken first, then — if a session exists — the
pipe write happens, then (only if the write succeeded) the flush, and the
guard is dropped on return. -/
def write_terminal_trace (slot : Option TerminalProcess) (data : List Nat)
    (wErr : Option (Nat × String)) (fErr : Option String) : List LockEv :=
  LockEv.acquire ::
    (match slot with
     | none => []
     | some _ =>
       match wErr with
       | some _ => [LockEv.ioWrite data]
       | none => [LockEv.ioWrite data, LockEv.ioFlush]) ++ [LockEv.release]

/-- Does any pipe I/O event occur while the lock is held?  `held` is the lock
state entering the trace. -/
def anyIoHeld : List LockEv → Bool → Bool
  | [], _ => false
  | LockEv.acquire :: r, _ => anyIoHeld r true
  | LockEv.release :: r, _ => anyIoHeld r false
  | LockEv.ioWrite _ :: r, held => held || anyIoHeld r held
  | LockEv.ioFlush :: r, held => held || anyIoHeld r held

/-! ### Output pumps (lines 256–306)

Each pump loops on `reader.read(&mut buf)` with a 4096-byte buffer:
`Ok(0)` breaks the loop (end of stream), `Ok(n)` decodes the `n` bytes with
`from_utf8_lossy` and emits the chunk, `Err(e)` logs and breaks.  After its
loop, the stdout pump additionally emits the literal chunk
`"\r\n[Process exited]\r\n"`; the stderr pump emits nothing after its loop.
A pump is modelled as a function of the finite sequence of results its reads
return. -/

/-- One result of `reader.read`: the bytes obtained (`Ok(n)` carries the `n`
bytes read, `n = bytes.length`, possibly zero at end of stream), or an I/O
error. -/
inductive ReadResult where
  | ok (bytes : List Nat)
  | err (e : String)
  deriving DecidableEq, Repr

/-- Why a pump loop stopped: end of stream (`Ok(0)`), a read error, or the
modelled read sequence ran out while the loop was still going. -/
inductive PumpExit where
  | eof
  | readError (e : String)
  | stillRunning
  deriving DecidableEq, Repr

/-- The pump read loop: decoded chunks emitted, in order, and why it
stopped. -/
def pumpLoop : List ReadResult → List (List Nat) × PumpExit
  | [] => ([], PumpExit.stillRunning)
  | ReadResult.ok [] :: _ => ([], PumpExit.eof)
  | ReadResult.ok bs :: rest =>
    let (cs, x) := pumpLoop rest
    (from_utf8_lossy bs :: cs, x)
  | ReadResult.err e :: _ => ([], PumpExit.readError e)

/-- The scalar values of the literal `"\r\n[Process exited]\r\n"` emitted by
the stdout pump after its loop. -/
def processExitedChunk : List Nat :=
  [13, 10, 91, 80, 114, 111, 99, 101, 115, 115, 32, 101, 120, 105, 116, 101, 100, 93, 13, 10]

/-- The stdout pump: its loop's chunks, followed by the
`"\r\n[Process exited]\r\n"` chunk once the loop has exited. -/
def stdout_pump (reads : List ReadResult) : List (List Nat) × PumpExit :=
  match pumpLoop reads with
  | (cs, PumpExit.stillRunning) => (cs, PumpExit.stillRunning)
  | (cs, x) => (cs ++ [processExitedChunk], x)

/-- The stderr pump: exactly its loop's chunks — nothing is emitted after the
loop exits. -/
def stderr_pump (reads : List ReadResult) : List (List Nat) × PumpExit :=
  pumpLoop reads

/-! ### Whole-bridge command model (registry slot evolution)

The registry slot is touched by three kinds of steps: a `spawn_terminal`
call, a `write_terminal` call, and the background exit watcher observing the
child's termination (lines 309–314).  The watcher's body is
`match child.wait() { Ok(status) => eprintln!(..), Err(e) => eprintln!(..) }`:
it only logs — it does not touch the registry slot and emits no event to the
subscriber. -/

inductive Cmd where
  | spawnT (isWindows wslExists : Bool) (outcome : SpawnOutcome)
  | writeT (data : List Nat) (wErr : Option (Nat × String)) (fErr : Option String)
  | childExited (status : Option Int)
  deriving DecidableEq, Repr

/-- Effect of one step on the registry slot, plus whether the step spawned a
subprocess. -/
def stepCmd (slot : Option TerminalProcess) : Cmd → Option TerminalProcess × Bool
  | Cmd.spawnT w e out =>
    let r := spawn_terminal slot w e out
    (r.slot, r.spawned)
  | Cmd.writeT data wErr fErr => ((write_terminal slot data wErr fErr).1, false)
  | Cmd.childExited _ => (slot, false)

/-- Run a command sequence from a slot state, returning the final slot and
the total number of subprocesses spawned along the way. -/
def runCmds (slot : Option TerminalProcess) : List Cmd → Option TerminalProcess × Nat
  | [] => (slot, 0)
  | c :: cs =>
    let (s1, sp) := stepCmd slot c
    let (s2, n) := runCmds s1 cs
    (s2, (if sp then 1 else 0) + n)

/-! ### Knowledge-log Markdown parser (`parse_knowledge_log`, lines 105–166)

The parser works on the lines of the file (`content.lines()`); a line is
modelled as the list of its character values (`List Nat`).  The character
functions below model the Rust string primitives the parser uses:
`isWsChar`/`trimWs` for `char::is_whitespace`/`str::trim` (the full Unicode
White_Space set, so `trimWs` agrees with `str::trim` on every input),
`upperChar` for `str::to_uppercase` on the ASCII plane (where the Unicode
uppercase mapping is exactly the `a-z → A-Z` map; the heading theorem
restricts the bracket contents it describes to ASCII accordingly),
`stripRepeat` for `str::trim_start_matches` (which strips the pattern
repeatedly), and `dropPat?` for `str::strip_prefix`. -/

/-- `char::is_whitespace`: the Unicode White_Space code points
(U+0009–U+000D, U+0020, U+0085, U+00A0, U+1680, U+2000–U+200A, U+2028,
U+2029, U+202F, U+205F, U+3000). -/
def isWsChar (c : Nat) : Bool :=
  decide ((9 ≤ c ∧ c ≤ 13) ∨ c = 0x20 ∨ c = 0x85 ∨ c = 0xA0 ∨ c = 0x1680 ∨
    (0x2000 ≤ c ∧ c ≤ 0x200A) ∨ c = 0x2028 ∨ c = 0x2029 ∨ c = 0x202F ∨
    c = 0x205F ∨ c = 0x3000)

/-- `str::trim`: drop whitespace from both ends. -/
def trimWs (l : List Nat) : List Nat :=
  ((l.dropWhile isWsChar).reverse.dropWhile isWsChar).reverse

/-- `str::to_uppercase` on one ASCII character (`a-z → A-Z`, everything else
unchanged); on non-ASCII characters the program applies the full Unicode
uppercase mapping, which this byte-level model does not carry, so the
theorems only assert `upperChar` values on ASCII inputs. -/
def upperChar (c : Nat) : Nat := if 97 ≤ c ∧ c ≤ 122 then c - 32 else c

/-- `str::strip_prefix`: `some` of the rest when `pat` is a prefix. -/
def dropPat? (pat l : List Nat) : Option (List Nat) :=
  if pat.isPrefixOf l then some (l.drop pat.length) else none

/-- Bounded repeated prefix-stripping; each successful strip of a nonempty
pattern consumes at least one character, so `l.length` rounds of fuel always
suffice. -/
def stripRepeatAux (pat : List Nat) : Nat → List Nat → List Nat
  | 0, l => l
  | fuel + 1, l =>
    if pat ≠ [] ∧ pat.isPrefixOf l then stripRepeatAux pat fuel (l.drop pat.length)
    else l

/-- `str::trim_start_matches`: strip the pattern from the front repeatedly. -/
def stripRepeat (pat l : List Nat) : List Nat := stripRepeatAux pat l.length l

/-- `"## "` -/
def litHH : List Nat := [35, 35, 32]
/-- `"### "` -/
def litHHH : List Nat := [35, 35, 35, 32]
/-- `"- "` -/
def litDash : List Nat := [45, 32]
/-- `"**Detail**:"` -/
def litDetail : List Nat := [42, 42, 68, 101, 116, 97, 105, 108, 42, 42, 58]
/-- `"**Source**:"` -/
def litSource : List Nat := [42, 42, 83, 111, 117, 114, 99, 101, 42, 42, 58]

/-- Index of the first `]` (character 93), as `rest.find(']')`. -/
def idxClose : List Nat → Option Nat
  | [] => none
  | c :: r => if c = 93 then some 0 else (idxClose r).map (· + 1)

/-- Lines 136–147: split an (already `"### "`-stripped and trimmed) heading.
`[TYPE] summary` gives the uppercased bracket contents and the trimmed
remainder; a heading with no leading `[` (char 91), or with no closing `]`
after it, gives an empty type and the whole heading as summary. -/
def parseHeader (header : List Nat) : List Nat × List Nat :=
  match header with
  | 91 :: rest =>
    match idxClose rest with
    | some k => ((rest.take k).map upperChar, trimWs (rest.drop (k + 1)))
    | none => ([], 91 :: rest)
  | _ => ([], header)

/-- One flat record pushed by `push_entry` (lines 168–187). -/
structure KRecord where
  engagement : List Nat
  workstream : List Nat
  date : List Nat
  type : List Nat
  summary : List Nat
  detail : List Nat
  source : List Nat
  deriving DecidableEq, Repr

/-- The parser's mutable locals (`current_date`, `current_type`,
`current_summary`, `current_detail`, `current_source`, `in_entry`). -/
structure PState where
  date : List Nat
  type : List Nat
  summary : List Nat
  detail : List Nat
  source : List Nat
  in_entry : Bool
  deriving DecidableEq, Repr

def initPState : PState := ⟨[], [], [], [], [], false⟩

/-- `push_entry`: assemble the flat record from the current state. -/
def push_entry (engagement workstream : List Nat) (st : PState) : KRecord :=
  ⟨engagement, workstream, st.date, st.type, st.summary, st.detail, st.source⟩

/-- The `for line in content.lines()` loop of `parse_knowledge_log`,
including the final flush of a pending entry at end of input. -/
def parseLoop (engagement workstream : List Nat) :
    List (List Nat) → PState → List KRecord
  | [], st => if st.in_entry then [push_entry engagement workstream st] else []
  | line :: rest, st =>
    if litHH.isPrefixOf line && !litHHH.isPrefixOf line then
      (if st.in_entry then [push_entry engagement workstream st] else []) ++
        parseLoop engagement workstream rest
          { st with date := trimWs (stripRepeat litHH line), in_entry := false }
    else if litHHH.isPrefixOf line then
      (if st.in_entry then [push_entry engagement workstream st] else []) ++
        (let ts := parseHeader (trimWs (stripRepeat litHHH line))
         parseLoop engagement workstream rest
           { st with type := ts.1, summary := ts.2, detail := [], source := [],
                     in_entry := true })
    else if st.in_entry then
      let trimmed := stripRepeat litDash line
      match dropPat? litDetail trimmed with
      | some r => parseLoop engagement workstream rest { st with detail := trimWs r }
      | none =>
        match dropPat? litSource trimmed with
        | some r => parseLoop engagement workstream rest { st with source := trimWs r }
        | none => parseLoop engagement workstream rest st
    else parseLoop engagement workstream rest st

/-- `parse_knowledge_log`: run the line loop from the all-empty initial
state.  `content` is the line list of the file. -/
def parse_knowledge_log (content : List (List Nat)) (engagement workstream : List Nat) :
    List KRecord :=
  parseLoop engagement workstream content initPState

/-- Number of `### ` sub-heading lines in the input. -/
def countHHH (lines : List (List Nat)) : Nat :=
  (lines.filter (fun l => litHHH.isPrefixOf l)).length

/-! ## Theorems -/

/-! ### UTF-8 round-trip lemmas -/

lemma isCont_mod (x : Nat) : isCont (0x80 + x % 0x40) = true := by
  simp only [isCont, decide_eq_true_eq]
  omega

/-- Decoding the encoding of one scalar value, followed by anything, yields
that scalar value and then the decoding of the rest. -/
lemma lossy_encodeChar (c : Nat) (hc : Scalar c) (t : List Nat) :
    from_utf8_lossy (utf8EncodeChar c ++ t) = c :: from_utf8_lossy t := by
  obtain ⟨hlt, hsur⟩ := hc
  by_cases h1 : c < 0x80
  · simp only [utf8EncodeChar, if_pos h1, List.cons_append, List.nil_append]
    rw [from_utf8_lossy.eq_2]
    have hd : decodeSym c t = (c, t) := by
      unfold decodeSym
      rw [if_pos h1]
    rw [hd]
  · by_cases h2 : c < 0x800
    · simp only [utf8EncodeChar, if_neg h1, if_pos h2, List.cons_append, List.nil_append]
      rw [from_utf8_lossy.eq_2]
      have hd : decodeSym (0xC0 + c / 0x40) ((0x80 + c % 0x40) :: t) = (c, t) := by
        unfold decodeSym
        rw [if_neg (by omega), if_neg (by omega), if_pos (by omega)]
        simp only [decode2, isCont_mod, if_true, Prod.mk.injEq]
        exact ⟨by omega, trivial⟩
      rw [hd]
    · by_cases h3 : c < 0x10000
      · simp only [utf8EncodeChar, if_neg h1, if_neg h2, if_pos h3, List.cons_append,
          List.nil_append]
        rw [from_utf8_lossy.eq_2]
        have hsnd : snd3 (0xE0 + c / 0x1000) (0x80 + c / 0x40 % 0x40) = true := by
          unfold snd3
          split
          · rename_i he
            simp only [decide_eq_true_eq]
            omega
          · split
            · rename_i hne he
              simp only [decide_eq_true_eq]
              omega
            · exact isCont_mod _
        have hd : decodeSym (0xE0 + c / 0x1000)
            ((0x80 + c / 0x40 % 0x40) :: (0x80 + c % 0x40) :: t) = (c, t) := by
          unfold decodeSym
          rw [if_neg (by omega), if_neg (by omega), if_neg (by omega), if_pos (by omega)]
          simp only [decode3, hsnd, if_true, decode3cont, isCont_mod, Prod.mk.injEq]
          exact ⟨by omega, trivial⟩
        rw [hd]
      · simp only [utf8EncodeChar, if_neg h1, if_neg h2, if_neg h3, List.cons_append,
          List.nil_append]
        rw [from_utf8_lossy.eq_2]
        have hsnd : snd4 (0xF0 + c / 0x40000) (0x80 + c / 0x1000 % 0x40) = true := by
          unfold snd4
          split
          · rename_i he
            simp only [decide_eq_true_eq]
            omega
          · split
            · rename_i hne he
              simp only [decide_eq_true_eq]
              omega
            · exact isCont_mod _
        have hd : decodeSym (0xF0 + c / 0x40000)
            ((0x80 + c / 0x1000 % 0x40) :: (0x80 + c / 0x40 % 0x40) :: (0x80 + c % 0x40) :: t)
            = (c, t) := by
          unfold decodeSym
          rw [if_neg (by omega), if_neg (by omega), if_neg (by omega), if_neg (by omega),
            if_pos (by omega)]
          simp only [decode4, hsnd, if_true, decode4cont, isCont_mod, decode4cont2,
            Prod.mk.injEq]
          exact ⟨by omega, trivial⟩
        rw [hd]

/-- Decoding the encoding of a scalar list, followed by anything. -/
lemma lossy_encode_append (cs : List Nat) (h : ∀ c ∈ cs, Scalar c) (t : List Nat) :
    from_utf8_lossy (utf8Encode cs ++ t) = cs ++ from_utf8_lossy t := by
  induction cs with
  | nil => simp [utf8Encode]
  | cons c cs ih =>
    have hc : Scalar c := h c (List.mem_cons_self c cs)
    have hcs : ∀ x ∈ cs, Scalar x := fun x hx => h x (List.mem_cons_of_mem c hx)
    simp only [utf8Encode, List.map_cons, List.flatten_cons, List.append_assoc]
    rw [lossy_encodeChar c hc]
    have : ((cs.map utf8EncodeChar).flatten ++ t) = utf8Encode cs ++ t := rfl
    rw [this, ih hcs]
    simp

/-- Valid UTF-8 decodes losslessly. -/
lemma lossy_encode (cs : List Nat) (h : ∀ c ∈ cs, Scalar c) :
    from_utf8_lossy (utf8Encode cs) = cs := by
  have := lossy_encode_append cs h []
  simpa [from_utf8_lossy] using this

/-- The encoding of a nonempty scalar list is nonempty. -/
lemma utf8Encode_ne_nil (cs : List Nat) (h : cs ≠ []) : utf8Encode cs ≠ [] := by
  cases cs with
  | nil => exact absurd rfl h
  | cons c cs =>
    simp only [utf8Encode, List.map_cons, List.flatten_cons]
    unfold utf8EncodeChar
    split
    · simp
    · split
      · simp
      · split
        · simp
        · simp

/-- A pump whose reads all return nonempty byte chunks emits exactly the
per-chunk decodings and keeps looping. -/
lemma pumpLoop_all_ok (bss : List (List Nat)) (h : ∀ bs ∈ bss, bs ≠ []) :
    pumpLoop (bss.map ReadResult.ok) = (bss.map from_utf8_lossy, PumpExit.stillRunning) := by
  induction bss with
  | nil => simp [pumpLoop]
  | cons bs bss ih =>
    have hbs : bs ≠ [] := h bs (List.mem_cons_self bs bss)
    cases bs with
    | nil => exact absurd rfl hbs
    | cons b bs' =>
      simp only [List.map_cons, pumpLoop]
      rw [ih (fun x hx => h x (List.mem_cons_of_mem _ hx))]

/-- Concatenation of per-chunk decodings equals the decoding of the
concatenation, when every chunk is valid UTF-8. -/
lemma lossy_flatten (css : List (List Nat)) (h : ∀ cs ∈ css, ∀ c ∈ cs, Scalar c) :
    ((css.map utf8Encode).map from_utf8_lossy).flatten
      = from_utf8_lossy (css.map utf8Encode).flatten := by
  induction css with
  | nil => simp [from_utf8_lossy]
  | cons cs css ih =>
    have hcs : ∀ c ∈ cs, Scalar c := h cs (List.mem_cons_self cs css)
    have hrest : ∀ x ∈ css, ∀ c ∈ x, Scalar c := fun x hx => h x (List.mem_cons_of_mem cs hx)
    simp only [List.map_cons, List.flatten_cons]
    rw [lossy_encode_append cs hcs _, lossy_encode cs hcs, ih hrest]

/-- C2, counterexample: the claim fails as stated.  The two-byte UTF-8
character U+00E9 (bytes `0xC3 0xA9`) split across two reads — each a legal
nonempty read of at most 4096 bytes — is delivered as two U+FFFD replacement
chunks, while the whole byte sequence decodes to the single character: the
concatenation of the delivered chunks differs from the decoding of the whole
sequence. -/
theorem C2_chunk_split_counterexample :
    (∀ bs ∈ ([[0xC3], [0xA9]] : List (List Nat)), bs ≠ [] ∧ bs.length ≤ 4096) ∧
    (pumpLoop (([[0xC3], [0xA9]] : List (List Nat)).map ReadResult.ok)).1.flatten = [0xFFFD, 0xFFFD] ∧
    from_utf8_lossy ([[0xC3], [0xA9]] : List (List Nat)).flatten = [0xE9] ∧
    (pumpLoop (([[0xC3], [0xA9]] : List (List Nat)).map ReadResult.ok)).1.flatten
      ≠ from_utf8_lossy ([[0xC3], [0xA9]] : List (List Nat)).flatten := by
  refine ⟨by decide, ?_, ?_, ?_⟩ <;>
    simp [pumpLoop, from_utf8_lossy, decodeSym, decode2, isCont]

/-- C2, amended: for every byte sequence emitted by the subprocess on one
channel and consumed in bounded nonempty reads of at most 4096 bytes, the
concatenation of the chunks delivered for that channel, in delivery order,
equals the whole byte sequence decoded as text — provided every read
boundary falls on a UTF-8 character boundary (each read's bytes are the
encoding of some scalar values `cs ∈ css`). -/
theorem C2_roundtrip_per_channel (css : List (List Nat))
    (hval : ∀ cs ∈ css, ∀ c ∈ cs, Scalar c)
    (hne : ∀ cs ∈ css, cs ≠ [])
    (hsize : ∀ cs ∈ css, (utf8Encode cs).length ≤ 4096) :
    (pumpLoop ((css.map utf8Encode).map ReadResult.ok)).1.flatten
      = from_utf8_lossy (css.map utf8Encode).flatten := by
  have hne' : ∀ bs ∈ css.map utf8Encode, bs ≠ [] := by
    intro bs hbs
    obtain ⟨cs, hcs, rfl⟩ := List.mem_map.mp hbs
    exact utf8Encode_ne_nil cs (hne cs hcs)
  rw [pumpLoop_all_ok _ hne']
  exact lossy_flatten css hval

/-- C2, witness: the amended round-trip at the concrete two-read channel
content `"a"`, `"é"`. -/
theorem C2_roundtrip_per_channel_witness :
    (∀ cs ∈ ([[0x61], [0xE9]] : List (List Nat)), ∀ c ∈ cs, Scalar c) ∧
    (∀ cs ∈ ([[0x61], [0xE9]] : List (List Nat)), cs ≠ []) ∧
    (∀ cs ∈ ([[0x61], [0xE9]] : List (List Nat)), (utf8Encode cs).length ≤ 4096) ∧
    (pumpLoop ((([[0x61], [0xE9]] : List (List Nat)).map utf8Encode).map ReadResult.ok)).1.flatten
      = from_utf8_lossy (([[0x61], [0xE9]] : List (List Nat)).map utf8Encode).flatten :=
  ⟨by decide, by decide, by decide,
    C2_roundtrip_per_channel [[0x61], [0xE9]] (by decide) (by decide) (by decide)⟩

/-! ### Session registry lemmas -/

/-- Every step taken from an occupied registry slot leaves it occupied and
spawns nothing. -/
lemma stepCmd_some (p : TerminalProcess) (c : Cmd) :
    ∃ q, stepCmd (some p) c = (some q, false) := by
  cases c with
  | spawnT w e out => exact ⟨p, rfl⟩
  | writeT data wErr fErr =>
    rcases wErr with _ | ⟨k, e⟩
    · rcases fErr with _ | e
      · exact ⟨⟨p.stdinBuf ++ data⟩, rfl⟩
      · exact ⟨⟨p.stdinBuf ++ data⟩, rfl⟩
    · exact ⟨⟨p.stdinBuf ++ data.take k⟩, rfl⟩
  | childExited status => exact ⟨p, rfl⟩

/-- A run starting from an occupied slot keeps it occupied and spawns
nothing. -/
lemma runCmds_some (p : TerminalProcess) (cmds : List Cmd) :
    ∃ q, runCmds (some p) cmds = (some q, 0) := by
  induction cmds generalizing p with
  | nil => exact ⟨p, rfl⟩
  | cons c cs ih =>
    obtain ⟨q, hq⟩ := stepCmd_some p c
    obtain ⟨q2, hq2⟩ := ih q
    refine ⟨q2, ?_⟩
    simp [runCmds, hq, hq2]

/-- A step from the empty slot either spawns (filling the slot) or leaves it
empty without spawning. -/
lemma stepCmd_none (c : Cmd) :
    stepCmd none c = (some ⟨[]⟩, true) ∨ stepCmd none c = (none, false) := by
  cases c with
  | spawnT w e out =>
    cases out with
    | success => exact Or.inl rfl
    | failure e => exact Or.inr rfl
  | writeT data wErr fErr => exact Or.inr rfl
  | childExited status => exact Or.inr rfl

/-- C1: the claim is right and the code is wrong.  The background exit
watcher (lines 309–314) only logs the `child.wait()` outcome: it never
clears the registry slot and never notifies the subscriber of termination.
Concretely, after a successful `spawn_terminal` followed by the watcher
observing the subprocess exit (status 0), the slot is still occupied and the
next `spawn_terminal` call returns "already running" without spawning — a
permanent lockout, where the claim (and the spec) requires the slot to be
cleared so that a new process is spawned. -/
theorem C1_exit_watcher_lockout :
    (runCmds none [Cmd.spawnT false false SpawnOutcome.success,
        Cmd.childExited (some 0)]).1 = some ⟨[]⟩ ∧
    spawn_terminal (runCmds none [Cmd.spawnT false false SpawnOutcome.success,
        Cmd.childExited (some 0)]).1 false false SpawnOutcome.success
      = ⟨some ⟨[]⟩, Except.ok "already running", false⟩ :=
  ⟨rfl, rfl⟩

/-- C3: at most one running session process-wide.  A `spawn_terminal` call
made while a session is running returns the non-error "already running"
status, leaves the slot untouched and spawns nothing; any run from an
occupied slot spawns zero subprocesses; and any command sequence from the
initial empty slot spawns at most one subprocess in total. -/
theorem C3_single_session :
    (∀ (p : TerminalProcess) (win wex : Bool) (out : SpawnOutcome),
        spawn_terminal (some p) win wex out
          = ⟨some p, Except.ok "already running", false⟩) ∧
    (∀ (p : TerminalProcess) (cmds : List Cmd), (runCmds (some p) cmds).2 = 0) ∧
    (∀ cmds : List Cmd, (runCmds none cmds).2 ≤ 1) := by
  refine ⟨fun p win wex out => rfl, ?_, ?_⟩
  · intro p cmds
    obtain ⟨q, hq⟩ := runCmds_some p cmds
    rw [hq]
  · intro cmds
    induction cmds with
    | nil => simp [runCmds]
    | cons c cs ih =>
      rcases stepCmd_none c with h | h
      · obtain ⟨q, hq⟩ := runCmds_some ⟨[]⟩ cs
        simp [runCmds, h, hq]
      · simp only [runCmds, h]
        simpa using ih

/-- C4: `write_terminal` with no active session always returns the
no-active-session error, leaves the slot empty and performs no pipe I/O (so
it cannot block or spawn); with a running session it appends `data` verbatim
to the subprocess stdin and flushes, returning `Ok` exactly when both
succeed, and a "Write failed"/"Flush failed" error — never a silent
success — when the pipe write or the flush fails. -/
theorem C4_write_terminal_contract :
    (∀ (data : List Nat) (wErr : Option (Nat × String)) (fErr : Option String),
        write_terminal none data wErr fErr = (none, Except.error noActiveSessionMsg) ∧
        write_terminal_trace none data wErr fErr = [LockEv.acquire, LockEv.release]) ∧
    (∀ (p : TerminalProcess) (data : List Nat),
        write_terminal (some p) data none none
          = (some ⟨p.stdinBuf ++ data⟩, Except.ok ())) ∧
    (∀ (p : TerminalProcess) (data : List Nat) (k : Nat) (e : String) (fErr : Option String),
        write_terminal (some p) data (some (k, e)) fErr
          = (some ⟨p.stdinBuf ++ data.take k⟩, Except.error ("Write failed: " ++ e))) ∧
    (∀ (p : TerminalProcess) (data : List Nat) (e : String),
        write_terminal (some p) data none (some e)
          = (some ⟨p.stdinBuf ++ data⟩, Except.error ("Flush failed: " ++ e))) :=
  ⟨fun _ _ _ => ⟨rfl, rfl⟩, fun _ _ => rfl, fun _ _ _ _ _ => rfl, fun _ _ _ => rfl⟩

/-- C5: the shell locator is a total function of the platform and the probed
filesystem fact (hence never fails and is deterministic).  On the platform
with no native POSIX shell it selects the compatibility-layer executable
with no arguments when the probed fixed path exists, otherwise the native
command interpreter; on every other platform it selects the POSIX-standard
interactive shell. -/
theorem C5_shell_locator :
    locateShell true true = ("wsl.exe", []) ∧
    locateShell true false = ("cmd.exe", []) ∧
    (∀ wslExists : Bool, locateShell false wslExists = ("bash", [])) :=
  ⟨rfl, rfl, fun _ => rfl⟩

/-- C6: when the spawn fails, `spawn_terminal` returns an error message
carrying both the attempted program name and the underlying OS error, and
the registry slot is left empty — no partial session state is stored. -/
theorem C6_spawn_failure_atomic :
    ∀ (win wex : Bool) (e : String),
      spawn_terminal none win wex (SpawnOutcome.failure e)
        = ⟨none,
            Except.error ("[TERM] Failed to spawn " ++ (locateShell win wex).1 ++ ": " ++ e),
            false⟩ :=
  fun _ _ _ => rfl

/-- C7, counterexample: the claim fails as stated.  On the concrete call
`write_terminal` with a running session and data `"ls\n"`, the pipe write
and the flush both occur strictly between the guard acquisition and its
release — blocking I/O is performed while the mutual-exclusion guard is
held, not after it is released. -/
theorem C7_io_under_lock_counterexample :
    write_terminal_trace (some ⟨[]⟩) [108, 115, 10] none none
      = [LockEv.acquire, LockEv.ioWrite [108, 115, 10], LockEv.ioFlush, LockEv.release] ∧
    anyIoHeld (write_terminal_trace (some ⟨[]⟩) [108, 115, 10] none none) false = true :=
  ⟨rfl, rfl⟩

/-- C7, amended: `write_terminal` acquires the registry guard, performs its
pipe write and flush *while holding it*, and releases it only on return;
with no active session it performs no pipe I/O at all.  (The pump reads and
the exit wait run on background threads that never acquire the guard.) -/
theorem C7_write_io_under_guard :
    (∀ (data : List Nat) (wErr : Option (Nat × String)) (fErr : Option String),
        write_terminal_trace none data wErr fErr = [LockEv.acquire, LockEv.release]) ∧
    (∀ (p : TerminalProcess) (data : List Nat) (fErr : Option String),
        write_terminal_trace (some p) data none fErr
          = [LockEv.acquire, LockEv.ioWrite data, LockEv.ioFlush, LockEv.release]) ∧
    (∀ (p : TerminalProcess) (data : List Nat) (k : Nat) (e : String) (fErr : Option String),
        write_terminal_trace (some p) data (some (k, e)) fErr
          = [LockEv.acquire, LockEv.ioWrite data, LockEv.release]) ∧
    (∀ (p : TerminalProcess) (data : List Nat) (wErr : Option (Nat × String))
        (fErr : Option String),
        anyIoHeld (write_terminal_trace (some p) data wErr fErr) false = true) := by
  refine ⟨fun _ _ _ => rfl, fun _ _ _ => rfl, fun _ _ _ _ _ => rfl, ?_⟩
  intro p data wErr fErr
  rcases wErr with _ | ⟨k, e⟩ <;> rfl

/-- C8, counterexample: the claim fails as stated.  On a read error the
stderr pump exits delivering no final chunk to the subscriber (the error is
only logged to the host's diagnostic stream): its delivered-chunk list is
empty. -/
theorem C8_stderr_error_no_final_chunk :
    stderr_pump [ReadResult.err "broken pipe"] = ([], PumpExit.readError "broken pipe") ∧
    (stderr_pump [ReadResult.err "broken pipe"]).1 = [] :=
  ⟨rfl, rfl⟩

/-- C8, amended: for each pump independently, a zero-length read is
end-of-stream and the pump exits without error, and a read error terminates
only that pump (each pump is a function of its own channel's reads alone,
and no pump step touches the registry slot).  The stdout pump follows its
loop exit — end-of-stream or error alike — with the final
`"\r\n[Process exited]\r\n"` chunk; the stderr pump exits silently. -/
theorem C8_pump_exit_behavior :
    (∀ rest : List ReadResult, pumpLoop (ReadResult.ok [] :: rest) = ([], PumpExit.eof)) ∧
    (∀ (e : String) (rest : List ReadResult),
        pumpLoop (ReadResult.err e :: rest) = ([], PumpExit.readError e)) ∧
    (∀ rest : List ReadResult,
        stdout_pump (ReadResult.ok [] :: rest) = ([processExitedChunk], PumpExit.eof)) ∧
    (∀ (e : String) (rest : List ReadResult),
        stdout_pump (ReadResult.err e :: rest) = ([processExitedChunk], PumpExit.readError e)) ∧
    (∀ (e : String) (rest : List ReadResult),
        stderr_pump (ReadResult.err e :: rest) = ([], PumpExit.readError e)) :=
  ⟨fun _ => rfl, fun _ _ => rfl, fun _ => rfl, fun _ _ => rfl, fun _ _ => rfl⟩

/-- C10: no operation ever resets the registry slot from occupied back to
empty — a step from an occupied slot (any `spawn_terminal`, any
`write_terminal`, or the exit watcher observing the child's termination)
always leaves it occupied — so after any command sequence from an occupied
slot, a further `spawn_terminal` still returns "already running" and spawns
nothing, even after the subprocess has exited. -/
theorem C10_slot_never_cleared :
    (∀ (p : TerminalProcess) (c : Cmd), ∃ q, stepCmd (some p) c = (some q, false)) ∧
    (∀ (p : TerminalProcess) (cmds : List Cmd) (win wex : Bool) (out : SpawnOutcome),
        (spawn_terminal (runCmds (some p) cmds).1 win wex out).result
            = Except.ok "already running" ∧
        (spawn_terminal (runCmds (some p) cmds).1 win wex out).spawned = false) := by
  refine ⟨stepCmd_some, ?_⟩
  intro p cmds win wex out
  obtain ⟨q, hq⟩ := runCmds_some p cmds
  rw [hq]
  exact ⟨rfl, rfl⟩

/-! ### Knowledge-log parser lemmas -/

lemma idxClose_append (ty rest : List Nat) (h : 93 ∉ ty) :
    idxClose (ty ++ 93 :: rest) = some ty.length := by
  induction ty with
  | nil => simp [idxClose]
  | cons c ty ih =>
    have hc : c ≠ 93 := fun e => h (e ▸ List.mem_cons_self c ty)
    have hm : 93 ∉ ty := fun hm => h (List.mem_cons_of_mem c hm)
    simp only [List.cons_append, idxClose, if_neg hc]
    rw [show (ty.append (93 :: rest)) = ty ++ 93 :: rest from rfl, ih hm]
    rfl

lemma idxClose_none (l : List Nat) (h : 93 ∉ l) : idxClose l = none := by
  induction l with
  | nil => rfl
  | cons c r ih =>
    have hc : c ≠ 93 := fun e => h (e ▸ List.mem_cons_self c r)
    have hm : 93 ∉ r := fun hm => h (List.mem_cons_of_mem c hm)
    simp only [idxClose, if_neg hc, ih hm]
    rfl

lemma drop_succ_append (ty : List Nat) (x : Nat) (rest : List Nat) :
    (ty ++ x :: rest).drop (ty.length + 1) = rest := by
  induction ty with
  | nil => simp
  | cons c ty ih => simpa using ih

/-- A well-formed `[TYPE] summary` heading: uppercased bracket contents and
trimmed remainder. -/
lemma parseHeader_bracketed (ty rest : List Nat) (h : 93 ∉ ty) :
    parseHeader (91 :: (ty ++ 93 :: rest)) = (ty.map upperChar, trimWs rest) := by
  simp only [parseHeader, idxClose_append ty rest h]
  rw [List.take_left, drop_succ_append]

/-- A heading opening with `[` but never closing it: empty type, whole
heading as summary. -/
lemma parseHeader_no_close (rest : List Nat) (h : 93 ∉ rest) :
    parseHeader (91 :: rest) = ([], 91 :: rest) := by
  simp only [parseHeader, idxClose_none rest h]

/-- A heading not opening with `[`: empty type, whole heading as summary. -/
lemma parseHeader_not_bracket (c : Nat) (r : List Nat) (h : c ≠ 91) :
    parseHeader (c :: r) = ([], c :: r) := by
  unfold parseHeader
  split
  · rename_i rest heq
    injection heq with h1 h2
    exact absurd h1 h
  · rfl

lemma countHHH_cons (line : List Nat) (rest : List (List Nat)) :
    countHHH (line :: rest)
      = countHHH rest + (if litHHH.isPrefixOf line then 1 else 0) := by
  simp only [countHHH, List.filter_cons]
  split <;> simp

/-- The loop emits exactly one record per `### ` line, plus one for a
pending entry carried into it. -/
lemma parseLoop_length (e w : List Nat) (lines : List (List Nat)) (st : PState) :
    (parseLoop e w lines st).length
      = countHHH lines + (if st.in_entry then 1 else 0) := by
  induction lines generalizing st with
  | nil =>
    simp only [parseLoop, countHHH, List.filter_nil, List.length_nil, Nat.zero_add]
    cases h : st.in_entry <;> simp
  | cons line rest ih =>
    rw [countHHH_cons]
    by_cases h3 : litHHH.isPrefixOf line = true
    · simp only [parseLoop, h3, Bool.not_true, Bool.and_false, Bool.false_eq_true, if_false,
        if_true, List.length_append, ih]
      cases h : st.in_entry <;> simp <;> omega
    · have h3f : litHHH.isPrefixOf line = false := by
        cases hb : litHHH.isPrefixOf line
        · rfl
        · exact absurd hb h3
      by_cases h2 : litHH.isPrefixOf line = true
      · simp only [parseLoop, h2, h3f, Bool.not_false, Bool.and_true, if_true,
          Bool.false_eq_true, if_false, List.length_append, ih]
        cases h : st.in_entry <;> simp <;> omega
      · have h2f : litHH.isPrefixOf line = false := by
          cases hb : litHH.isPrefixOf line
          · rfl
          · exact absurd hb h2
        simp only [parseLoop, h2f, h3f, Bool.false_and, Bool.false_eq_true, if_false]
        by_cases hin : st.in_entry = true
        · simp only [hin, if_true]
          rcases hd : dropPat? litDetail (stripRepeat litDash line) with _ | r
          · rcases hs : dropPat? litSource (stripRepeat litDash line) with _ | r2
            · simp [ih, hin]
            · simp [ih, hin]
          · simp [ih, hin]
        · have hinf : st.in_entry = false := by
            cases hb : st.in_entry
            · rfl
            · exact absurd hb hin
          simp [hinf, ih]

/-- Processing a prefix of the document emits some records `E` and reaches
some state `st2`; counting pending entries, `E` holds exactly the records of
the prefix's completed entries. -/
lemma parseLoop_append (e w : List Nat) (pre suf : List (List Nat)) (st : PState) :
    ∃ E st2, parseLoop e w (pre ++ suf) st = E ++ parseLoop e w suf st2 ∧
      E.length + (if st2.in_entry then 1 else 0)
        = countHHH pre + (if st.in_entry then 1 else 0) := by
  induction pre generalizing st with
  | nil => exact ⟨[], st, rfl, by simp [countHHH]⟩
  | cons l pre ih =>
    rw [List.cons_append]
    by_cases h3 : litHHH.isPrefixOf l = true
    · obtain ⟨E, st2, heq, hlen⟩ := ih { st with
        type := (parseHeader (trimWs (stripRepeat litHHH l))).1,
        summary := (parseHeader (trimWs (stripRepeat litHHH l))).2,
        detail := [], source := [], in_entry := true }
      refine ⟨(if st.in_entry then [push_entry e w st] else []) ++ E, st2, ?_, ?_⟩
      · simp only [parseLoop, h3, Bool.not_true, Bool.and_false, Bool.false_eq_true, if_false,
          if_true]
        rw [heq, List.append_assoc]
      · have hlen2 : E.length + (if st2.in_entry then 1 else 0) = countHHH pre + 1 := by
          simpa using hlen
        rw [countHHH_cons, h3]
        cases hin : st.in_entry <;> simp [List.length_append] <;> omega
    · have h3f : litHHH.isPrefixOf l = false := by
        cases hb : litHHH.isPrefixOf l
        · rfl
        · exact absurd hb h3
      by_cases h2 : litHH.isPrefixOf l = true
      · obtain ⟨E, st2, heq, hlen⟩ := ih { st with
          date := trimWs (stripRepeat litHH l), in_entry := false }
        refine ⟨(if st.in_entry then [push_entry e w st] else []) ++ E, st2, ?_, ?_⟩
        · simp only [parseLoop, h2, h3f, Bool.not_false, Bool.and_true, if_true,
            Bool.false_eq_true, if_false]
          rw [heq, List.append_assoc]
        · have hlen2 : E.length + (if st2.in_entry then 1 else 0) = countHHH pre := by
            simpa using hlen
          rw [countHHH_cons, h3f]
          cases hin : st.in_entry <;> simp [List.length_append] <;> omega
      · have h2f : litHH.isPrefixOf l = false := by
          cases hb : litHH.isPrefixOf l
          · rfl
          · exact absurd hb h2
        by_cases hin : st.in_entry = true
        · rcases hd : dropPat? litDetail (stripRepeat litDash l) with _ | r
          · rcases hs : dropPat? litSource (stripRepeat litDash l) with _ | r2
            · obtain ⟨E, st2, heq, hlen⟩ := ih st
              refine ⟨E, st2, ?_, ?_⟩
              · simp only [parseLoop, h2f, h3f, Bool.false_and, Bool.false_eq_true, if_false,
                  hin, if_true, hd, hs]
                exact heq
              · rw [countHHH_cons, h3f]
                simpa using hlen
            · obtain ⟨E, st2, heq, hlen⟩ := ih { st with source := trimWs r2 }
              rw [hin] at heq
              refine ⟨E, st2, ?_, ?_⟩
              · simp only [parseLoop, h2f, h3f, Bool.false_and, Bool.false_eq_true, if_false,
                  hin, if_true, hd, hs]
                exact heq
              · rw [countHHH_cons, h3f]
                simpa using hlen
          · obtain ⟨E, st2, heq, hlen⟩ := ih { st with detail := trimWs r }
            rw [hin] at heq
            refine ⟨E, st2, ?_, ?_⟩
            · simp only [parseLoop, h2f, h3f, Bool.false_and, Bool.false_eq_true, if_false,
                hin, if_true, hd]
              exact heq
            · rw [countHHH_cons, h3f]
              simpa using hlen
        · have hinf : st.in_entry = false := by
            cases hb : st.in_entry
            · rfl
            · exact absurd hb hin
          obtain ⟨E, st2, heq, hlen⟩ := ih st
          refine ⟨E, st2, ?_, ?_⟩
          · simp only [parseLoop, h2f, h3f, Bool.false_and, Bool.false_eq_true, if_false,
              hinf]
            exact heq
          · rw [countHHH_cons, h3f]
            simpa using hlen

/-- Entry-body lines (no `## `/`### ` heading among them) keep the entry
open and leave its type and summary untouched; its detail (resp. source)
is also untouched when no `**Detail**:` (resp. `**Source**:`) line occurs
among them. -/
lemma parseLoop_body (e w : List Nat) (mid : List (List Nat))
    (hmid : ∀ l ∈ mid, litHH.isPrefixOf l = false ∧ litHHH.isPrefixOf l = false)
    (rest : List (List Nat)) (st : PState) (hin : st.in_entry = true) :
    ∃ st2, parseLoop e w (mid ++ rest) st = parseLoop e w rest st2 ∧
      st2.in_entry = true ∧ st2.type = st.type ∧ st2.summary = st.summary ∧
      ((∀ l ∈ mid, dropPat? litDetail (stripRepeat litDash l) = none) →
        st2.detail = st.detail) ∧
      ((∀ l ∈ mid, dropPat? litSource (stripRepeat litDash l) = none) →
        st2.source = st.source) := by
  induction mid generalizing st with
  | nil => exact ⟨st, rfl, hin, rfl, rfl, fun _ => rfl, fun _ => rfl⟩
  | cons l mid ih =>
    obtain ⟨h2f, h3f⟩ := hmid l (List.mem_cons_self l mid)
    have hmid2 : ∀ x ∈ mid, litHH.isPrefixOf x = false ∧ litHHH.isPrefixOf x = false :=
      fun x hx => hmid x (List.mem_cons_of_mem l hx)
    rw [List.cons_append]
    rcases hd : dropPat? litDetail (stripRepeat litDash l) with _ | r
    · rcases hs : dropPat? litSource (stripRepeat litDash l) with _ | r2
      · obtain ⟨st2, heq, hin2, hty, hsum, hdet, hsrc⟩ := ih hmid2 st hin
        refine ⟨st2, ?_, hin2, hty, hsum, ?_, ?_⟩
        · simp only [parseLoop, h2f, h3f, Bool.false_and, Bool.false_eq_true, if_false,
            hin, if_true, hd, hs]
          exact heq
        · intro h
          exact hdet fun x hx => h x (List.mem_cons_of_mem l hx)
        · intro h
          exact hsrc fun x hx => h x (List.mem_cons_of_mem l hx)
      · obtain ⟨st2, heq, hin2, hty, hsum, hdet, hsrc⟩ := ih hmid2 { st with source := trimWs r2 } hin
        rw [hin] at heq
        refine ⟨st2, ?_, hin2, hty, hsum, ?_, ?_⟩
        · simp only [parseLoop, h2f, h3f, Bool.false_and, Bool.false_eq_true, if_false,
            hin, if_true, hd, hs]
          exact heq
        · intro h
          exact hdet fun x hx => h x (List.mem_cons_of_mem l hx)
        · intro h
          exact absurd (h l (List.mem_cons_self l mid)) (by rw [hs]; simp)
    · obtain ⟨st2, heq, hin2, hty, hsum, hdet, hsrc⟩ := ih hmid2 { st with detail := trimWs r } hin
      rw [hin] at heq
      refine ⟨st2, ?_, hin2, hty, hsum, ?_, ?_⟩
      · simp only [parseLoop, h2f, h3f, Bool.false_and, Bool.false_eq_true, if_false,
          hin, if_true, hd]
        exact heq
      · intro h
        exact absurd (h l (List.mem_cons_self l mid)) (by rw [hd]; simp)
      · intro h
        exact hsrc fun x hx => h x (List.mem_cons_of_mem l hx)

/-- At the end of the entry — end of input or a next heading line — the
pending entry is flushed as the next record. -/
lemma parseLoop_flush_term (e w : List Nat) (rest : List (List Nat)) (st : PState)
    (hin : st.in_entry = true)
    (hterm : rest = [] ∨ ∃ l2 rest2, rest = l2 :: rest2 ∧
        (litHH.isPrefixOf l2 = true ∨ litHHH.isPrefixOf l2 = true)) :
    ∃ tail, parseLoop e w rest st = push_entry e w st :: tail := by
  rcases hterm with rfl | ⟨l2, rest2, rfl, hl2⟩
  · exact ⟨[], by simp [parseLoop, hin]⟩
  · by_cases h3 : litHHH.isPrefixOf l2 = true
    · refine ⟨parseLoop e w rest2 { st with
        type := (parseHeader (trimWs (stripRepeat litHHH l2))).1,
        summary := (parseHeader (trimWs (stripRepeat litHHH l2))).2,
        detail := [], source := [], in_entry := true }, ?_⟩
      simp only [parseLoop, h3, Bool.not_true, Bool.and_false, Bool.false_eq_true, if_false,
        if_true, hin, List.singleton_append]
    · have h3f : litHHH.isPrefixOf l2 = false := by
        cases hb : litHHH.isPrefixOf l2
        · rfl
        · exact absurd hb h3
      have h2 : litHH.isPrefixOf l2 = true := by
        rcases hl2 with h | h
        · exact h
        · exact absurd h h3
      refine ⟨parseLoop e w rest2 { st with
        date := trimWs (stripRepeat litHH l2), in_entry := false }, ?_⟩
      simp only [parseLoop, h2, h3f, Bool.not_false, Bool.and_true, if_true,
        Bool.false_eq_true, if_false, hin, List.singleton_append]

/-- The record belonging to one `### ` heading, in an arbitrary document:
for any prefix `pre`, heading `line`, complete entry body `mid` (no further
heading inside) and continuation `rest` beginning at a heading (or empty),
the parse output has exactly `countHHH pre` records before this entry's
record; that record's type and summary come from the heading, and its
detail (resp. source) is empty whenever its own body has no `**Detail**:`
(resp. `**Source**:`) line — regardless of annotation lines elsewhere in
the document. -/
lemma parse_entry_record (e w : List Nat) (pre : List (List Nat)) (line : List Nat)
    (mid rest : List (List Nat))
    (hline : litHHH.isPrefixOf line = true)
    (hmid : ∀ l ∈ mid, litHH.isPrefixOf l = false ∧ litHHH.isPrefixOf l = false)
    (hterm : rest = [] ∨ ∃ l2 rest2, rest = l2 :: rest2 ∧
        (litHH.isPrefixOf l2 = true ∨ litHHH.isPrefixOf l2 = true)) :
    ∃ E rec tail,
      parse_knowledge_log (pre ++ line :: (mid ++ rest)) e w = E ++ rec :: tail ∧
      E.length = countHHH pre ∧
      rec.type = (parseHeader (trimWs (stripRepeat litHHH line))).1 ∧
      rec.summary = (parseHeader (trimWs (stripRepeat litHHH line))).2 ∧
      ((∀ l ∈ mid, dropPat? litDetail (stripRepeat litDash l) = none) → rec.detail = []) ∧
      ((∀ l ∈ mid, dropPat? litSource (stripRepeat litDash l) = none) → rec.source = []) := by
  obtain ⟨E, st2, heq, hlen⟩ := parseLoop_append e w pre (line :: (mid ++ rest)) initPState
  have hstep : parseLoop e w (line :: (mid ++ rest)) st2
      = (if st2.in_entry then [push_entry e w st2] else [])
        ++ parseLoop e w (mid ++ rest) { st2 with
            type := (parseHeader (trimWs (stripRepeat litHHH line))).1,
            summary := (parseHeader (trimWs (stripRepeat litHHH line))).2,
            detail := [], source := [], in_entry := true } := by
    simp only [parseLoop, hline, Bool.not_true, Bool.and_false, Bool.false_eq_true, if_false,
      if_true]
  obtain ⟨st3, hbody, hin3, hty3, hsum3, hdet3, hsrc3⟩ :=
    parseLoop_body e w mid hmid rest { st2 with
      type := (parseHeader (trimWs (stripRepeat litHHH line))).1,
      summary := (parseHeader (trimWs (stripRepeat litHHH line))).2,
      detail := [], source := [], in_entry := true } rfl
  obtain ⟨tail, hflush⟩ := parseLoop_flush_term e w rest st3 hin3 hterm
  refine ⟨E ++ (if st2.in_entry then [push_entry e w st2] else []),
    push_entry e w st3, tail, ?_, ?_, ?_, ?_, ?_, ?_⟩
  · rw [parse_knowledge_log, heq, hstep, hbody, hflush, List.append_assoc]
  · have h0 : (if initPState.in_entry = true then 1 else 0) = 0 := rfl
    rw [h0] at hlen
    rw [List.length_append]
    cases hin2 : st2.in_entry <;> rw [hin2] at hlen <;> simp at hlen ⊢ <;> omega
  · rw [show (push_entry e w st3).type = st3.type from rfl, hty3]
  · rw [show (push_entry e w st3).summary = st3.summary from rfl, hsum3]
  · intro h
    rw [show (push_entry e w st3).detail = st3.detail from rfl, hdet3 h]
  · intro h
    rw [show (push_entry e w st3).source = st3.source from rfl, hsrc3 h]

/-- C9: the knowledge-log parser is total (a function on all inputs, never
failing) and: it emits exactly one flat record per `### ` sub-heading line;
a heading `[TYPE] summary` yields the uppercased bracket contents as the
type (asserted on the ASCII plane, where `str::to_uppercase` is the
`a-z → A-Z` map) and the trimmed remainder as the summary; a malformed
heading — no leading `[`, or a `[` with no closing `]` — yields an empty
type with the full heading text as the summary; and per record, in any
document: the record of a `### ` heading whose own entry body carries no
`**Detail**:` (resp. `**Source**:`) line has an empty detail (resp. source)
field, with its type and summary coming from its heading. -/
theorem C9_knowledge_log_records :
    (∀ (content : List (List Nat)) (e w : List Nat),
        (parse_knowledge_log content e w).length = countHHH content) ∧
    (∀ ty rest : List Nat, 93 ∉ ty → (∀ c ∈ ty, c < 0x80) →
        parseHeader (91 :: (ty ++ 93 :: rest)) = (ty.map upperChar, trimWs rest)) ∧
    (∀ (c : Nat) (r : List Nat), c ≠ 91 → parseHeader (c :: r) = ([], c :: r)) ∧
    (∀ rest : List Nat, 93 ∉ rest → parseHeader (91 :: rest) = ([], 91 :: rest)) ∧
    (∀ (e w : List Nat) (pre : List (List Nat)) (line : List Nat)
        (mid rest : List (List Nat)),
        litHHH.isPrefixOf line = true →
        (∀ l ∈ mid, litHH.isPrefixOf l = false ∧ litHHH.isPrefixOf l = false) →
        (rest = [] ∨ ∃ l2 rest2, rest = l2 :: rest2 ∧
            (litHH.isPrefixOf l2 = true ∨ litHHH.isPrefixOf l2 = true)) →
        ∃ E rec tail,
          parse_knowledge_log (pre ++ line :: (mid ++ rest)) e w = E ++ rec :: tail ∧
          E.length = countHHH pre ∧
          rec.type = (parseHeader (trimWs (stripRepeat litHHH line))).1 ∧
          rec.summary = (parseHeader (trimWs (stripRepeat litHHH line))).2 ∧
          ((∀ l ∈ mid, dropPat? litDetail (stripRepeat litDash l) = none) →
            rec.detail = []) ∧
          ((∀ l ∈ mid, dropPat? litSource (stripRepeat litDash l) = none) →
            rec.source = [])) := by
  refine ⟨?_, fun ty rest h _ => parseHeader_bracketed ty rest h,
    parseHeader_not_bracket, parseHeader_no_close,
    fun e w pre line mid rest hline hmid hterm =>
      parse_entry_record e w pre line mid rest hline hmid hterm⟩
  intro content e w
  rw [parse_knowledge_log, parseLoop_length]
  simp [initPState]

/-- C9, witness: each hypothesis-bearing part of the parser theorem applied
at concrete inputs — the ASCII heading `[dec] s`, the bracketless heading
`#a`, the unclosed heading `[x`, and the document `"## d"`, `"### h"`,
`"t"` whose single entry has a body with no annotation lines. -/
theorem C9_knowledge_log_records_witness :
    ((93 : Nat) ∉ ([100, 101, 99] : List Nat) ∧
      (∀ c ∈ ([100, 101, 99] : List Nat), c < 0x80) ∧
      parseHeader (91 :: ([100, 101, 99] ++ 93 :: [32, 115]))
        = (([100, 101, 99] : List Nat).map upperChar, trimWs [32, 115])) ∧
    ((35 : Nat) ≠ 91 ∧ parseHeader [35, 97] = ([], [35, 97])) ∧
    ((93 : Nat) ∉ ([120] : List Nat) ∧ parseHeader (91 :: [120]) = ([], 91 :: [120])) ∧
    (litHHH.isPrefixOf [35, 35, 35, 32, 104] = true ∧
      (∀ l ∈ ([[116]] : List (List Nat)),
        litHH.isPrefixOf l = false ∧ litHHH.isPrefixOf l = false) ∧
      ∃ E rec tail,
        parse_knowledge_log ([[35, 35, 32, 100]] ++ [35, 35, 35, 32, 104] :: ([[116]] ++ []))
            [101] [119] = E ++ rec :: tail ∧
        E.length = countHHH [[35, 35, 32, 100]] ∧
        rec.type = (parseHeader (trimWs (stripRepeat litHHH [35, 35, 35, 32, 104]))).1 ∧
        rec.summary = (parseHeader (trimWs (stripRepeat litHHH [35, 35, 35, 32, 104]))).2 ∧
        ((∀ l ∈ ([[116]] : List (List Nat)),
            dropPat? litDetail (stripRepeat litDash l) = none) → rec.detail = []) ∧
        ((∀ l ∈ ([[116]] : List (List Nat)),
            dropPat? litSource (stripRepeat litDash l) = none) → rec.source = [])) :=
  ⟨⟨by decide, by decide,
      C9_knowledge_log_records.2.1 [100, 101, 99] [32, 115] (by decide) (by decide)⟩,
   ⟨by decide, C9_knowledge_log_records.2.2.1 35 [97] (by decide)⟩,
   ⟨by decide, C9_knowledge_log_records.2.2.2.1 [120] (by decide)⟩,
   ⟨by decide, by decide,
     C9_knowledge_log_records.2.2.2.2 [101] [119] [[35, 35, 32, 100]] [35, 35, 35, 32, 104]
       [[116]] [] (by decide) (by decide) (Or.inl rfl)⟩⟩

end SlOt
